import Mathlib

/-!
Verification of the tile-based precipitation engine of `src/jma.rs`
(repository `kumanofoo/sunnyday`).

The Rust code is shallowly embedded as executable Lean definitions:

* machine floats: `Tile::count_precipitation` accumulates an integer weight
  sum (at most `100 * 65536 < 2^24`, hence exactly representable in `f32`)
  and divides by `256.0 * 256.0 = 2^16`, which only shifts the exponent, so
  every value the Rust code manipulates is an exact rational; we model these
  values with `ℚ`, on which `<`, `max` agree with the `f32` operations of
  the source for the values that actually occur;
* `panic!` and out-of-bounds indexing are modelled as `Option.none`
  propagated to the caller: `none` means "the Rust process aborts";
* network and imaging primitives (`reqwest` GET, PNG decode, thumbnail
  re-encode, `chrono` local-time formatting) are effect parameters gathered
  in a `FetchEnv`; a fetch depends only on the (basetime, validtime, member)
  key and the fixed tile address, exactly as the URL template of
  `Tile::get_tile` does;
* `chrono` instants (`DateTime<Utc>`) are modelled by their integer second
  count (`Int`); `Duration::days(365).num_seconds() = 31536000`.
-/

/-- RGBA pixel with one byte per channel (`image::Rgba<u8>` in the source). -/
structure Rgba where
  r : Nat
  g : Nat
  b : Nat
  a : Nat
  deriving DecidableEq

/-- The pixel palette of `Tile::count_precipitation` (src/jma.rs:322-337):
the `match` on the pixel value maps ten exact RGBA colors to their
precipitation weights (the second component `intensity.1` of each arm);
the catch-all arm `_ => panic!(...)` is modelled as `none`.  A Rust `match`
against constant patterns is a sequence of equality tests, embedded here as
an `if`-chain in source order. -/
def pixel_weight (p : Rgba) : Option Nat :=
  if p = ⟨180, 0, 104, 255⟩ then some 100      -- Violet
  else if p = ⟨255, 40, 0, 255⟩ then some 80   -- Red
  else if p = ⟨255, 153, 0, 255⟩ then some 50  -- Orange
  else if p = ⟨250, 245, 0, 255⟩ then some 30  -- Yellow
  else if p = ⟨0, 65, 255, 255⟩ then some 20   -- Blue
  else if p = ⟨33, 140, 255, 255⟩ then some 10 -- Water
  else if p = ⟨160, 210, 255, 255⟩ then some 5 -- Sky Blue
  else if p = ⟨242, 242, 255, 255⟩ then some 1 -- Subtle blue
  else if p = ⟨0, 0, 0, 0⟩ then some 0         -- Clear
  else if p = ⟨255, 255, 255, 0⟩ then some 0   -- Clear
  else none

/-- A decoded 256×256 tile image (`image.to_rgba8()` buffer). -/
abbrev Grid : Type := Fin 256 → Fin 256 → Rgba

/-- `Tile::count_precipitation` (src/jma.rs:315-342).  The Rust loop panics
at the first pixel whose color is outside the palette; otherwise it returns
the integer weight sum divided by `256.0 * 256.0`.  The abort is modelled as
`none`, the result as the exact rational (see the file header). -/
def count_precipitation (buffer : Grid) : Option ℚ :=
  if ∀ x : Fin 256, ∀ y : Fin 256, (pixel_weight (buffer x y)).isSome then
    some ((∑ x : Fin 256, ∑ y : Fin 256,
      ((pixel_weight (buffer x y)).getD 0 : ℚ)) / (256 * 256))
  else
    none

/-- Catalog entry (`TileMeta`, src/jma.rs:141-150).  The source stores
`validtime` as a `YYYYMMDDHHMMSS` string and parses it to a UTC instant in
`TileMeta::validtime`; we model the field directly by that instant in
seconds.  `precipitation` and `image` are the `#[serde(skip)]` result
fields filled in by `Tile::get_tiles`. -/
structure TileMeta where
  basetime : String
  validtime : Int
  member : String
  elements : List String
  precipitation : Option ℚ
  image : String
  deriving DecidableEq

/-- Placeholder entry used only as the default of `List.getD`. -/
def dmeta : TileMeta := ⟨"", 0, "", [], none, ""⟩

/-- The cache key of a catalog entry: the URL of `Tile::get_tile` and the
equality of `TileMeta` depend on exactly these three fields. -/
def TileMeta.key (m : TileMeta) : String × Int × String :=
  (m.basetime, m.validtime, m.member)

/-- `impl PartialEq for TileMeta` (src/jma.rs:152-158): equality on
`basetime`, `validtime` and `member` only (`elements`, `precipitation`,
`image` are ignored). -/
def tileMetaEq (a b : TileMeta) : Bool :=
  a.basetime == b.basetime && a.validtime == b.validtime && a.member == b.member

/-- `CACHE_SIZE` (src/jma.rs:16). -/
def CACHE_SIZE : Nat := 12

/-- The tile cache (src/jma.rs:17-20): a vector of `CACHE_SIZE` slots. -/
abbrev Cache : Type := List (Option TileMeta)

/-- The initial cache: `vec![None; CACHE_SIZE]`. -/
def initCache : Cache := List.replicate CACHE_SIZE none

/-- `cache_push` (src/jma.rs:22-25): `remove(0)` then `push(Some(meta))`. -/
def cache_push (meta : TileMeta) (cache : Cache) : Cache :=
  cache.drop 1 ++ [some meta]

/-- `cache_search` (src/jma.rs:27-36): scan the slots in order and return a
clone of the first occupied slot equal (as `PartialEq`, i.e. same key) to
the probe; `Err(())` is modelled as `none`. -/
def cache_search (meta : TileMeta) : Cache → Option TileMeta
  | [] => none
  | none :: rest => cache_search meta rest
  | some m :: rest => if tileMetaEq m meta then some m else cache_search meta rest

/-- Effect environment for one aggregation call.
`fetch` models `Tile::get_tile` (src/jma.rs:251-274): one HTTP GET of the
tile URL — which depends only on the entry's key and the fixed tile
address — followed by a PNG decode.  It has three outcomes, matching the
source: `none` is a connection-level failure — `get_tile` calls
`reqwest::get(url).await.unwrap()`, `resp.bytes().await.unwrap()` and
`with_guessed_format().unwrap()` (src/jma.rs:261-265), so such a failure
panics and aborts the process; `some none` is an image-decode failure
(`reader.decode()` returns `Err`, src/jma.rs:268-272), which `get_tile`
turns into `None`; `some (some g)` is a successfully decoded image.
`b64` models `Tile::base64png` (src/jma.rs:276-289): thumbnail resize,
PNG re-encode and base64, `none` when the re-encode fails.  `format_hm`
models the `chrono` local-time `"%H:%M"` formatting of a valid time
(src/jma.rs:440-445). -/
structure FetchEnv where
  fetch : String × Int × String → Option (Option Grid)
  b64 : Grid → Option String
  format_hm : Int → String

/-- The fetch-and-push part of one iteration of the `Tile::get_tiles` loop
(src/jma.rs:300-310): fetch the tile — a connection-level failure panics
(`none`, nothing pushed) — then classify it (a classification panic also
aborts: `none`), fill in `precipitation`/`image`, and push into the cache;
an image-decode failure is recorded as a `none` precipitation and pushed.
The third component records the network requests issued. -/
def resolve_fetch (env : FetchEnv) (cache : Cache) (meta : TileMeta) :
    Option (TileMeta × Cache × List (String × Int × String)) :=
  match env.fetch meta.key with
  | none => none
  | some (some img) =>
    match count_precipitation img with
    | some p =>
      let meta2 : TileMeta :=
        { meta with precipitation := some p, image := (env.b64 img).getD "" }
      some (meta2, cache_push meta2 cache, [meta.key])
    | none => none
  | some none =>
    let meta2 : TileMeta := { meta with precipitation := none, image := "" }
    some (meta2, cache_push meta2 cache, [meta.key])

/-- One iteration of the `Tile::get_tiles` loop (src/jma.rs:292-311): on a
cache hit the cached `precipitation`/`image` are copied into the entry and,
if the cached precipitation is present, the loop `continue`s without any
network access or push; otherwise the entry is fetched. -/
def resolve (env : FetchEnv) (cache : Cache) (meta : TileMeta) :
    Option (TileMeta × Cache × List (String × Int × String)) :=
  match cache_search meta cache with
  | some c =>
    let meta1 : TileMeta :=
      { meta with precipitation := c.precipitation, image := c.image }
    if meta1.precipitation.isSome then some (meta1, cache, [])
    else resolve_fetch env cache meta1
  | none => resolve_fetch env cache meta

/-- `Tile::get_tiles` (src/jma.rs:291-312): resolve each selected entry in
order, threading the cache; `none` propagates a classification panic. -/
def get_tiles (env : FetchEnv) (cache : Cache) :
    List TileMeta → Option (List TileMeta × Cache × List (String × Int × String))
  | [] => some ([], cache, [])
  | m :: rest =>
    match resolve env cache m with
    | none => none
    | some (m2, cache2, reqs) =>
      match get_tiles env cache2 rest with
      | none => none
      | some (rest2, cache3, reqs2) => some (m2 :: rest2, cache3, reqs ++ reqs2)

/-- `TileResult` (src/jma.rs:195-199). -/
structure TileResult where
  precipitation : ℚ
  images : List String
  times : List String
  deriving DecidableEq

/-- `TileResult::new` (src/jma.rs:202-208). -/
def TileResult.new : TileResult := ⟨0, [], []⟩

/-- One iteration of the aggregation loop of
`Tile::precipitation_with_images` (src/jma.rs:423-447): update the running
maximum (`Err` as long as no entry produced a precipitation) and append the
entry's display time and image to the result. -/
def agg_fold (env : FetchEnv) (acc : Except String ℚ × TileResult)
    (meta : TileMeta) : Except String ℚ × TileResult :=
  let pk : Except String ℚ :=
    match acc.1 with
    | .ok p =>
      match meta.precipitation with
      | some mp => if p < mp then .ok mp else .ok p
      | none => .ok p
    | .error _ =>
      match meta.precipitation with
      | some mp => .ok mp
      | none => .error ""
  (pk, { acc.2 with
          times := acc.2.times ++ [env.format_hm meta.validtime],
          images := acc.2.images ++ [meta.image] })

/-- `Duration::days(365).num_seconds()` (src/jma.rs:374). -/
def DURATION_INIT : Int := 31536000

/-- The nearest-entry loop of `Tile::precipitation_with_images`
(src/jma.rs:373-382): `for (i, m) in catalog.iter().enumerate()` updating
`(now_index, duration_min)` whenever the absolute valid-time difference is
strictly below the running minimum.  `k` is the index of the next entry. -/
def anchor_go (begin1 : Int) (k : Nat) (acc : Nat × Int) :
    List TileMeta → Nat × Int
  | [] => acc
  | m :: rest =>
    if |m.validtime - begin1| < acc.2 then
      anchor_go begin1 (k + 1) (k, |m.validtime - begin1|) rest
    else anchor_go begin1 (k + 1) acc rest

/-- The anchor index `now_index` after the loop, starting from
`(0, Duration::days(365).num_seconds())`. -/
def anchor_index (catalog : List TileMeta) (begin1 : Int) : Nat :=
  (anchor_go begin1 0 (0, DURATION_INIT) catalog).1

/-- The candidate-selection loop of `Tile::precipitation_with_images`
(src/jma.rs:416-421): `for i in (0..=now_index).rev()`, breaking at the
first entry whose valid time exceeds `end`, pushing `catalog[i]` otherwise.
The Rust indexing `catalog[i]` panics when out of bounds, modelled as
`none`. -/
def candidate_scan (catalog : List TileMeta) (end0 : Int) :
    Nat → Option (List TileMeta)
  | 0 =>
    match catalog.get? 0 with
    | none => none
    | some m => if end0 < m.validtime then some [] else some [m]
  | j + 1 =>
    match catalog.get? (j + 1) with
    | none => none
    | some m =>
      if end0 < m.validtime then some []
      else (candidate_scan catalog end0 j).map (m :: ·)

/-- The part of `Tile::precipitation_with_images` after candidate selection
(src/jma.rs:422-452): resolve all candidates, fold the aggregation loop,
and either install the maximum into the result or fail with
`"No Precipitation data"`. -/
def aggregate_candidates (env : FetchEnv) (cache : Cache)
    (metas : List TileMeta) :
    Option (Except String TileResult × Cache × List (String × Int × String)) :=
  match get_tiles env cache metas with
  | none => none
  | some (metas2, cache2, reqs) =>
    let pr := metas2.foldl (agg_fold env) (.error "", TileResult.new)
    match pr.1 with
    | .ok p => some (.ok { pr.2 with precipitation := p }, cache2, reqs)
    | .error _ => some (.error "No Precipitation data", cache2, reqs)

instance {ε α : Type} [DecidableEq ε] [DecidableEq α] :
    DecidableEq (Except ε α) := fun a b =>
  match a, b with
  | .error e, .error f =>
    if h : e = f then .isTrue (by rw [h]) else .isFalse (by simp [h])
  | .error _, .ok _ => .isFalse (by simp)
  | .ok _, .error _ => .isFalse (by simp)
  | .ok x, .ok y =>
    if h : x = y then .isTrue (by rw [h]) else .isFalse (by simp [h])

/-- Outcome of one aggregation call: the returned `Result`, the final
cache, the tile requests issued, and whether the catalog was fetched
(`TileMeta::new()` at src/jma.rs:372 runs on every path that passes the
window validation, and on no other path). -/
structure AggOutcome where
  result : Except String TileResult
  cache : Cache
  requests : List (String × Int × String)
  catalog_fetched : Bool
  deriving DecidableEq

/-- `Tile::precipitation_with_images` (src/jma.rs:352-453), release
semantics (`debug_assert!` compiled out).  `now` is `Utc::now()`, `begin0`
and `end0` the window bounds derived from the part of day, `partName` its
`Debug` rendering, `catalog` the decoded reply of the catalog endpoint.
`none` models a process abort (panic). -/
def precipitation_with_images (env : FetchEnv) (cache : Cache)
    (now begin0 end0 : Int) (partName : String) (catalog : List TileMeta) :
    Option AggOutcome :=
  if end0 < now then
    some ⟨.error ("Out of " ++ partName), cache, [], false⟩
  else
    let begin1 := if begin0 < now then now else begin0
    match candidate_scan catalog end0 (anchor_index catalog begin1) with
    | none => none
    | some metas =>
      match aggregate_candidates env cache metas with
      | none => none
      | some (r, cache2, reqs) => some ⟨r, cache2, reqs, true⟩

/-- The two `debug_assert!` conditions at src/jma.rs:369-370:
`begin >= now` and `end > now`, checked right after the window
validation (they abort a debug build when violated). -/
def window_debug_assertions (now begin1 end0 : Int) : Prop :=
  now ≤ begin1 ∧ now < end0

/-- The per-candidate result of a failed fetch in `Tile::get_tiles`
(src/jma.rs:306-309): `precipitation = None`, empty image. -/
def fail_mark (m : TileMeta) : TileMeta :=
  { m with precipitation := none, image := "" }

/-- The ten palette colors of `Tile::count_precipitation` in match-arm
order (src/jma.rs:323-333). -/
def paletteList : List Rgba :=
  [⟨180, 0, 104, 255⟩, ⟨255, 40, 0, 255⟩, ⟨255, 153, 0, 255⟩,
   ⟨250, 245, 0, 255⟩, ⟨0, 65, 255, 255⟩, ⟨33, 140, 255, 255⟩,
   ⟨160, 210, 255, 255⟩, ⟨242, 242, 255, 255⟩, ⟨0, 0, 0, 0⟩,
   ⟨255, 255, 255, 0⟩]

/-! Concrete inputs used by witnesses and counterexamples. -/

/-- A grid whose every pixel is outside the palette. -/
def badGrid : Grid := fun _ _ => ⟨1, 2, 3, 4⟩

/-- A grid of "violet" (weight 100) pixels only. -/
def violetGrid : Grid := fun _ _ => ⟨180, 0, 104, 255⟩

/-- A grid of transparent (weight 0) pixels only. -/
def clearGrid : Grid := fun _ _ => ⟨0, 0, 0, 0⟩

/-- Environment in which every tile fetch reaches the service but fails to
decode as an image. -/
def envFail : FetchEnv := ⟨fun _ => some none, fun _ => none, fun _ => ""⟩

/-- Environment in which every tile fetch decodes to an off-palette
image. -/
def envBad : FetchEnv :=
  ⟨fun _ => some (some badGrid), fun _ => none, fun _ => ""⟩

/-- Environment in which every tile fetch decodes to an all-violet image
and thumbnail encoding yields `"T"`. -/
def envGood : FetchEnv :=
  ⟨fun _ => some (some violetGrid), fun _ => some "T", fun _ => "t"⟩

/-- Environment in which every tile fetch fails at the connection level
(one of the `unwrap()`s in `Tile::get_tile` panics). -/
def envPanic : FetchEnv := ⟨fun _ => none, fun _ => none, fun _ => ""⟩

def mA : TileMeta := ⟨"20240101000000", 100, "none", [], none, ""⟩

def mB : TileMeta := ⟨"bb", 7, "n", [], none, ""⟩

def mC : TileMeta := ⟨"c", 200, "n", [], none, ""⟩

def mD : TileMeta := ⟨"d", 9, "n", [], none, ""⟩

/-- A catalog entry whose valid time (50) lies beyond a window ending
at 0. -/
def mW : TileMeta := ⟨"b", 50, "n", [], none, ""⟩

/-- A cached entry with a successful precipitation under the same key
as `mW`. -/
def mS : TileMeta := ⟨"b", 50, "n", [], some 3, "img"⟩

/-- The result of a successful all-violet fetch for `mW` under
`envGood`. -/
def mWs : TileMeta := ⟨"b", 50, "n", [], some 100, "T"⟩

/-- A cache holding one successful entry for the key of `mW`. -/
def cacheHit : Cache := cache_push mS initCache

/-- Thirteen pairwise key-distinct entries for the FIFO witness. -/
def w0 : TileMeta := ⟨"b", 0, "n", [], none, ""⟩

def wrest : List TileMeta :=
  [⟨"b", 1, "n", [], none, ""⟩, ⟨"b", 2, "n", [], none, ""⟩,
   ⟨"b", 3, "n", [], none, ""⟩, ⟨"b", 4, "n", [], none, ""⟩,
   ⟨"b", 5, "n", [], none, ""⟩, ⟨"b", 6, "n", [], none, ""⟩,
   ⟨"b", 7, "n", [], none, ""⟩, ⟨"b", 8, "n", [], none, ""⟩,
   ⟨"b", 9, "n", [], none, ""⟩, ⟨"b", 10, "n", [], none, ""⟩,
   ⟨"b", 11, "n", [], none, ""⟩, ⟨"b", 12, "n", [], none, ""⟩]

/-- A catalog whose entries are both ≥ 365 days away from `begin = 0`,
with the nearer entry second. -/
def cat6 : List TileMeta :=
  [⟨"b", 40000000, "n", [], none, ""⟩, ⟨"b", 35000000, "n", [], none, ""⟩]

/-- A two-entry catalog for the nearest-match witness: with
`begin = 45`, entry 1 (valid time 40) is the unique nearest entry. -/
def catW : List TileMeta :=
  [⟨"b", 100, "n", [], none, ""⟩, ⟨"b", 40, "n", [], none, ""⟩]

set_option maxRecDepth 8000

/-! ### Cache lemmas -/

/-- Pushing a sequence of entries into a nonempty cache keeps the suffix of
the concatenated history: each `cache_push` drops the oldest slot and
appends the new one. -/
lemma foldl_cache_push (ms : List TileMeta) :
    ∀ c : Cache, c ≠ [] →
      List.foldl (fun cc mm => cache_push mm cc) c ms
        = (c ++ ms.map some).drop ms.length := by
  induction ms with
  | nil => intro c _; simp
  | cons m ms ih =>
    intro c hc
    cases c with
    | nil => exact absurd rfl hc
    | cons a c2 =>
      rw [List.foldl_cons]
      have h2 : cache_push m (a :: c2) = c2 ++ [some m] := by
        simp [cache_push]
      rw [h2, ih (c2 ++ [some m]) (by simp)]
      simp [List.append_assoc]

/-- Searching a cache of occupied slots whose entries are all key-distinct
from the probe fails. -/
lemma cache_search_map_some (l : List TileMeta) (m : TileMeta)
    (h : ∀ m2 ∈ l, tileMetaEq m2 m = false) :
    cache_search m (l.map some) = none := by
  induction l with
  | nil => rfl
  | cons a l ih =>
    have ha : tileMetaEq a m = false := h a (List.mem_cons_self a l)
    simp only [List.map_cons, cache_search, ha]
    exact ih (fun m2 hm2 => h m2 (List.mem_cons_of_mem a hm2))

/-- A successful cache lookup returns an entry with the probe's key. -/
lemma cache_search_found (m c : TileMeta) :
    ∀ cache : Cache, cache_search m cache = some c → tileMetaEq c m = true := by
  intro cache
  induction cache with
  | nil => intro h; cases h
  | cons a rest ih =>
    cases a with
    | none => exact fun h => ih h
    | some b =>
      intro h
      simp only [cache_search] at h
      by_cases hb : tileMetaEq b m
      · rw [if_pos hb] at h
        cases h
        exact hb
      · rw [if_neg hb] at h
        exact ih h

/-- C5.  The tile cache evicts in strict FIFO insertion order: after
thirteen sequential pushes of key-distinct entries into the initially empty
cache of capacity 12, the cache consists exactly of the entries of pushes
2-13 in push order, and the entry of the 1st push is no longer found.
Lookups (`cache_search`) take the cache as a read-only argument and return
a value without producing a new cache — the source likewise only iterates
(src/jma.rs:27-36) — so interleaved reads cannot affect the fold of
pushes. -/
theorem c5_cache_fifo (m : TileMeta) (rest : List TileMeta)
    (hlen : rest.length = CACHE_SIZE)
    (hdist : ∀ m2 ∈ rest, tileMetaEq m2 m = false) :
    List.foldl (fun cc mm => cache_push mm cc) initCache (m :: rest)
        = rest.map some
    ∧ cache_search m
        (List.foldl (fun cc mm => cache_push mm cc) initCache (m :: rest))
        = none := by
  have h1 : List.foldl (fun cc mm => cache_push mm cc) initCache (m :: rest)
      = rest.map some := by
    rw [foldl_cache_push (m :: rest) initCache (by simp [initCache, CACHE_SIZE])]
    simp only [List.length_cons, hlen]
    rfl
  exact ⟨h1, by rw [h1]; exact cache_search_map_some rest m hdist⟩

/-- Witness for C5 at thirteen concrete key-distinct entries. -/
theorem c5_cache_fifo_witness :
    List.foldl (fun cc mm => cache_push mm cc) initCache (w0 :: wrest)
        = wrest.map some
    ∧ cache_search w0
        (List.foldl (fun cc mm => cache_push mm cc) initCache (w0 :: wrest))
        = none :=
  c5_cache_fifo w0 wrest (by decide) (by decide)

/-! ### Classifier lemmas -/

/-- A constant grid built from a palette color of weight `w` classifies to
exactly `w`: the weight sum is `65536 * w` and the division by
`256.0 * 256.0` is exact. -/
lemma count_const (c : Rgba) (w : Nat) (hw : pixel_weight c = some w) :
    count_precipitation (fun _ _ => c) = some w := by
  have hcond : ∀ x : Fin 256, ∀ y : Fin 256,
      (pixel_weight ((fun _ _ => c : Grid) x y)).isSome := by
    intro x y
    rw [hw]
    rfl
  simp only [count_precipitation]
  rw [if_pos hcond]
  have hs : (∑ x : Fin 256, ∑ y : Fin 256,
      ((pixel_weight ((fun _ _ => c : Grid) x y)).getD 0 : ℚ)) = 65536 * w := by
    simp only [hw, Option.getD_some]
    simp [Finset.sum_const, Finset.card_univ, mul_comm, mul_assoc]
    ring
  rw [hs]
  congr 1
  rw [mul_comm]
  rw [mul_div_assoc]
  norm_num

/-- C8.  `Tile::count_precipitation` is a pure function of the pixel grid
returning the mean per-pixel palette weight `sum(weight) / (256*256)`;
an all-transparent grid yields exactly 0 and an all-violet grid exactly
100 (src/jma.rs:315-342). -/
theorem c8_classify_mean :
    (∀ g : Grid, (∀ x : Fin 256, ∀ y : Fin 256, (pixel_weight (g x y)).isSome) →
        count_precipitation g
          = some ((∑ x : Fin 256, ∑ y : Fin 256,
              ((pixel_weight (g x y)).getD 0 : ℚ)) / (256 * 256)))
  ∧ (∀ g : Grid, (∀ x : Fin 256, ∀ y : Fin 256, g x y = ⟨0, 0, 0, 0⟩) →
        count_precipitation g = some 0)
  ∧ (∀ g : Grid, (∀ x : Fin 256, ∀ y : Fin 256, g x y = ⟨180, 0, 104, 255⟩) →
        count_precipitation g = some 100)
  ∧ (∀ g1 g2 : Grid, (∀ x : Fin 256, ∀ y : Fin 256, g1 x y = g2 x y) →
        count_precipitation g1 = count_precipitation g2) := by
  refine ⟨?_, ?_, ?_, ?_⟩
  · intro g h
    simp only [count_precipitation]
    rw [if_pos h]
  · intro g h
    have hg : g = (fun _ _ => ⟨0, 0, 0, 0⟩ : Grid) :=
      funext fun x => funext fun y => h x y
    rw [hg]
    simpa using count_const ⟨0, 0, 0, 0⟩ 0 (by decide)
  · intro g h
    have hg : g = (fun _ _ => ⟨180, 0, 104, 255⟩ : Grid) :=
      funext fun x => funext fun y => h x y
    rw [hg]
    simpa using count_const ⟨180, 0, 104, 255⟩ 100 (by decide)
  · intro g1 g2 h
    have hg : g1 = g2 := funext fun x => funext fun y => h x y
    rw [hg]

/-- Witness for C8: the all-transparent and all-violet grids. -/
theorem c8_classify_mean_witness :
    count_precipitation clearGrid = some 0
    ∧ count_precipitation violetGrid = some 100 :=
  ⟨c8_classify_mean.2.1 clearGrid (fun _ _ => rfl),
   c8_classify_mean.2.2.1 violetGrid (fun _ _ => rfl)⟩

/-- C7 (amended).  The palette of `Tile::count_precipitation` is an
exhaustive enumeration of exactly TEN RGBA colors (two of them — fully
transparent black and transparent white — both of weight 0), whose weights
are exactly {0, 1, 5, 10, 20, 30, 50, 80, 100}; and one pixel outside the
palette fails the classification of the whole tile, regardless of the
other pixels. -/
theorem c7_palette_amended :
    (paletteList.length = 10 ∧ paletteList.Nodup)
  ∧ (∀ p : Rgba, (pixel_weight p).isSome ↔ p ∈ paletteList)
  ∧ ((paletteList.map (fun p => (pixel_weight p).getD 0)).toFinset
        = ({0, 1, 5, 10, 20, 30, 50, 80, 100} : Finset Nat))
  ∧ (∀ g : Grid, ∀ x y : Fin 256, pixel_weight (g x y) = none →
        count_precipitation g = none) := by
  refine ⟨⟨by decide, by decide⟩, ?_, by decide, ?_⟩
  · intro p
    simp only [pixel_weight]
    split_ifs with h1 h2 h3 h4 h5 h6 h7 h8 h9 h10
    · subst h1; decide
    · subst h2; decide
    · subst h3; decide
    · subst h4; decide
    · subst h5; decide
    · subst h6; decide
    · subst h7; decide
    · subst h8; decide
    · subst h9; decide
    · subst h10; decide
    · simp [paletteList, h1, h2, h3, h4, h5, h6, h7, h8, h9, h10]
  · intro g x y h
    have hcond : ¬ ∀ x2 : Fin 256, ∀ y2 : Fin 256,
        (pixel_weight (g x2 y2)).isSome := by
      intro hall
      have h2 := hall x y
      rw [h] at h2
      simp at h2
    simp only [count_precipitation]
    rw [if_neg hcond]

/-- Counterexample to C7 as stated: the palette cannot be enumerated by
nine RGBA colors — `pixel_weight` accepts ten pairwise distinct colors, so
any exhaustive enumeration has at least ten elements. -/
theorem c7_palette_counterexample :
    ¬ ∃ S : Finset Rgba, S.card = 9 ∧
        ∀ p : Rgba, (pixel_weight p).isSome ↔ p ∈ S := by
  rintro ⟨S, hcard, hmem⟩
  have hsub : paletteList.toFinset ⊆ S := by
    intro x hx
    rw [List.mem_toFinset] at hx
    fin_cases hx <;> exact (hmem _).mp (by decide)
  have h10 : paletteList.toFinset.card = 10 := by decide
  have hle := Finset.card_le_card hsub
  omega

/-- Witness for C7's single-bad-pixel clause at the all-off-palette
grid. -/
theorem c7_palette_witness :
    pixel_weight (badGrid 0 0) = none ∧ count_precipitation badGrid = none :=
  ⟨by decide, c7_palette_amended.2.2.2 badGrid 0 0 (by decide)⟩

/-! ### Window validation (C2) -/

/-- C2 (code divergence).  The window validation of
`Tile::precipitation_with_images` rejects only `now > end` (src/jma.rs:362).
First conjunct: for `now` strictly past `end` the out-of-window error is
returned with no catalog fetch, no tile request and an untouched cache.
Second conjunct: at the boundary `now = end` — which the claim, and the
code's own `debug_assert!(end > now)` (src/jma.rs:370), require to fail
out-of-window — the release build instead proceeds, fetches the catalog
(`catalog_fetched = true`) and returns the aggregation's own error.
Third conjunct: the debug assertions are indeed violated there (a debug
build aborts). -/
theorem c2_out_of_window_bug :
    precipitation_with_images envFail initCache 1 (-10) 0 "Afternoon" [mW]
        = some ⟨.error "Out of Afternoon", initCache, [], false⟩
  ∧ precipitation_with_images envFail initCache 0 (-10) 0 "Afternoon" [mW]
        = some ⟨.error "No Precipitation data", initCache, [], true⟩
  ∧ ¬ window_debug_assertions 0 0 0 := by
  refine ⟨by decide, by decide, ?_⟩
  intro h
  exact absurd h.2 (by decide)

/-! ### Classification panic (C3) -/

/-- C3 (amended).  A pixel outside the palette is NOT recoverable: when a
candidate's tile decodes to a grid with an off-palette pixel (and no
successful cache entry short-circuits the fetch), `count_precipitation`
panics inside `Tile::get_tiles`, aborting the resolution of that entry,
the whole `get_tiles` loop, and the whole aggregation — no slice gets
`none` recorded and no remaining candidate is processed. -/
theorem c3_classification_panic_amended (env : FetchEnv) (cache : Cache)
    (meta : TileMeta) (g : Grid)
    (hnohit : ∀ c, cache_search meta cache = some c → c.precipitation = none)
    (hfetch : env.fetch meta.key = some (some g))
    (hbad : ¬ ∀ x : Fin 256, ∀ y : Fin 256, (pixel_weight (g x y)).isSome) :
    resolve env cache meta = none
  ∧ (∀ rest, get_tiles env cache (meta :: rest) = none)
  ∧ (∀ rest, aggregate_candidates env cache (meta :: rest) = none) := by
  have hcount : count_precipitation g = none := by
    simp only [count_precipitation]
    rw [if_neg hbad]
  have hres : resolve env cache meta = none := by
    cases hc : cache_search meta cache with
    | none => simp only [resolve, hc, resolve_fetch, hfetch, hcount]
    | some c =>
      have hcp : c.precipitation = none := hnohit c hc
      simp only [resolve, hc, hcp, Option.isSome_none, Bool.false_eq_true,
        if_false, resolve_fetch, TileMeta.key, hcount]
      rw [show env.fetch (meta.basetime, meta.validtime, meta.member)
            = some (some g) from hfetch]
      simp [hcount]
  refine ⟨hres, ?_, ?_⟩
  · intro rest
    simp only [get_tiles, hres]
  · intro rest
    simp only [aggregate_candidates, get_tiles, hres]

/-- Witness for C3 at the all-off-palette environment. -/
theorem c3_classification_panic_witness :
    resolve envBad initCache mA = none
    ∧ get_tiles envBad initCache [mA] = none
    ∧ aggregate_candidates envBad initCache [mA] = none := by
  have h := c3_classification_panic_amended envBad initCache mA badGrid
    (by
      intro c hc
      have hn : cache_search mA initCache = (none : Option TileMeta) := by decide
      rw [hn] at hc
      cases hc)
    rfl (by decide)
  exact ⟨h.1, h.2.1 [], h.2.2 []⟩

/-- Counterexample to C3 as stated: with two candidates whose tiles decode
to an off-palette image, the classification failure is not "treated the
same as a decode failure for that one slice": `get_tiles` and the
aggregation return no value at all (the Rust process panics at the first
candidate), instead of recording `none` for that slice and continuing with
the remaining candidate. -/
theorem c3_classification_panic_counterexample :
    get_tiles envBad initCache [mB, mC] = none
    ∧ aggregate_candidates envBad initCache [mB, mC] = none
    ∧ ¬ ∃ r, aggregate_candidates envBad initCache [mB, mC] = some r := by
  have hn : aggregate_candidates envBad initCache [mB, mC] = none := by decide
  refine ⟨by decide, hn, ?_⟩
  rintro ⟨r, hr⟩
  rw [hn] at hr
  cases hr

/-! ### Cache-aware resolution (C4) -/

/-- `resolve_fetch` ignores the incoming `precipitation` and `image`
fields: the URL depends only on the key and both fields are overwritten in
every branch. -/
lemma resolve_fetch_update (env : FetchEnv) (cache : Cache) (meta : TileMeta)
    (pp : Option ℚ) (ii : String) :
    resolve_fetch env cache { meta with precipitation := pp, image := ii }
      = resolve_fetch env cache meta := by
  cases meta
  rfl

/-- Without a successful cache hit (no matching entry, or a matching entry
whose precipitation is `none`), `resolve` falls through to the fetch. -/
lemma resolve_miss (env : FetchEnv) (cache : Cache) (meta : TileMeta)
    (hor : cache_search meta cache = none ∨
      ∃ c, cache_search meta cache = some c ∧ c.precipitation = none) :
    resolve env cache meta = resolve_fetch env cache meta := by
  rcases hor with h | ⟨c, hc, hcp⟩
  · simp only [resolve, h]
  · simp only [resolve, hc, hcp, Option.isSome_none, Bool.false_eq_true,
      if_false]
    exact resolve_fetch_update env cache meta none c.image

/-- C4 (amended).  One step of `Tile::get_tiles` short-circuits exactly on
a successful prior value: (i) a cache hit whose precipitation is present is
returned (same key, cached precipitation and thumbnail) with no network
request and no push; otherwise a fetch is issued and (ii) an image-decode
failure pushes a fresh entry with `none` precipitation, (iii) a fetched
image whose pixels all classify pushes a fresh entry with the classified
precipitation — in both cases the push happens even when a failed entry
for the same key is still in the cache, so duplicate keys can accumulate;
but, unlike the claim's "success or failure, a new CacheEntry is pushed",
two failure modes panic and push nothing: (iv) a fetched image with an
off-palette pixel (the `panic!` in `count_precipitation`), and (v) a
connection-level network failure (the `unwrap()`s in `Tile::get_tile`,
src/jma.rs:261-265). -/
theorem c4_resolve_cache_amended :
    (∀ (env : FetchEnv) (cache : Cache) (meta c : TileMeta),
        cache_search meta cache = some c → c.precipitation.isSome →
        tileMetaEq c meta = true ∧
        resolve env cache meta
          = some ({ meta with precipitation := c.precipitation,
                              image := c.image }, cache, []))
  ∧ (∀ (env : FetchEnv) (cache : Cache) (meta : TileMeta),
        (cache_search meta cache = none ∨
          ∃ c, cache_search meta cache = some c ∧ c.precipitation = none) →
        env.fetch meta.key = some none →
        resolve env cache meta
          = some (fail_mark meta, cache_push (fail_mark meta) cache,
                  [meta.key]))
  ∧ (∀ (env : FetchEnv) (cache : Cache) (meta : TileMeta) (g : Grid) (p : ℚ),
        (cache_search meta cache = none ∨
          ∃ c, cache_search meta cache = some c ∧ c.precipitation = none) →
        env.fetch meta.key = some (some g) →
        count_precipitation g = some p →
        resolve env cache meta
          = some ({ meta with precipitation := some p,
                              image := (env.b64 g).getD "" },
                  cache_push { meta with precipitation := some p,
                                         image := (env.b64 g).getD "" } cache,
                  [meta.key]))
  ∧ (∀ (env : FetchEnv) (cache : Cache) (meta : TileMeta) (g : Grid),
        (cache_search meta cache = none ∨
          ∃ c, cache_search meta cache = some c ∧ c.precipitation = none) →
        env.fetch meta.key = some (some g) →
        count_precipitation g = none →
        resolve env cache meta = none)
  ∧ (∀ (env : FetchEnv) (cache : Cache) (meta : TileMeta),
        (cache_search meta cache = none ∨
          ∃ c, cache_search meta cache = some c ∧ c.precipitation = none) →
        env.fetch meta.key = none →
        resolve env cache meta = none) := by
  refine ⟨?_, ?_, ?_, ?_, ?_⟩
  · intro env cache meta c hc hcp
    refine ⟨cache_search_found meta c cache hc, ?_⟩
    simp only [resolve, hc, hcp, if_true]
  · intro env cache meta hor hfetch
    rw [resolve_miss env cache meta hor]
    simp only [resolve_fetch, hfetch, fail_mark]
  · intro env cache meta g p hor hfetch hcount
    rw [resolve_miss env cache meta hor]
    simp only [resolve_fetch, hfetch, hcount]
  · intro env cache meta g hor hfetch hcount
    rw [resolve_miss env cache meta hor]
    simp only [resolve_fetch, hfetch, hcount]
  · intro env cache meta hor hfetch
    rw [resolve_miss env cache meta hor]
    simp only [resolve_fetch, hfetch]

/-- Counterexample to C4 as stated: the cache is empty (no matching entry),
the fetch is performed and the tile decodes — but to an off-palette image,
so the resolution aborts and no `CacheEntry` is pushed, contradicting
"a new CacheEntry is pushed into the cache after the fetch attempt,
success or failure".  The second pair shows the other no-push path: a
connection-level network failure also aborts with nothing pushed. -/
theorem c4_resolve_cache_counterexample :
    (envBad.fetch mB.key = some (some badGrid)
     ∧ resolve envBad initCache mB = none)
    ∧ (envPanic.fetch mB.key = none
       ∧ resolve envPanic initCache mB = none) :=
  ⟨⟨rfl, by decide⟩, ⟨rfl, by decide⟩⟩

/-- Witness for C4: hit with a successful cached value (no request, no
push), miss with a decode failure, miss with a successful all-violet
fetch, the classification-panic case and the network-panic case. -/
theorem c4_resolve_cache_witness :
    resolve envFail cacheHit mW = some (mS, cacheHit, [])
    ∧ resolve envFail initCache mW
        = some (fail_mark mW, cache_push (fail_mark mW) initCache, [mW.key])
    ∧ resolve envGood initCache mW
        = some (mWs, cache_push mWs initCache, [mW.key])
    ∧ resolve envBad initCache mD = none
    ∧ resolve envPanic initCache mC = none := by
  refine ⟨?_, ?_, ?_, ?_, ?_⟩
  · exact (c4_resolve_cache_amended.1 envFail cacheHit mW mS
      (by decide) (by decide)).2
  · exact c4_resolve_cache_amended.2.1 envFail initCache mW
      (Or.inl (by decide)) rfl
  · have h := c4_resolve_cache_amended.2.2.1 envGood initCache mW violetGrid
      ((100 : Nat) : ℚ) (Or.inl (by decide)) rfl (count_const _ _ (by decide))
    simpa [mW, mWs] using h
  · exact c4_resolve_cache_amended.2.2.2.1 envBad initCache mD badGrid
      (Or.inl (by decide)) rfl (by decide)
  · exact c4_resolve_cache_amended.2.2.2.2 envPanic initCache mC
      (Or.inl (by decide)) rfl

/-! ### Aggregation-loop lemmas (C1) -/

/-- The result-assembly half of the aggregation loop: times and images are
the per-candidate display times and thumbnails, appended in order. -/
lemma agg_fold_snd (env : FetchEnv) :
    ∀ (ms : List TileMeta) (acc : Except String ℚ × TileResult),
      (ms.foldl (agg_fold env) acc).2
        = ⟨acc.2.precipitation,
           acc.2.images ++ ms.map (fun m => m.image),
           acc.2.times ++ ms.map (fun m => env.format_hm m.validtime)⟩ := by
  intro ms
  induction ms with
  | nil => intro acc; simp
  | cons m ms ih =>
    intro acc
    rw [List.foldl_cons, ih]
    simp [agg_fold]

/-- From a successful running maximum, the aggregation loop computes the
fold of `max` over the candidate precipitations that are present. -/
lemma agg_fold_fst_ok (env : FetchEnv) :
    ∀ (ms : List TileMeta) (p : ℚ) (r : TileResult),
      (ms.foldl (agg_fold env) (.ok p, r)).1
        = .ok ((ms.filterMap (fun m => m.precipitation)).foldl max p) := by
  intro ms
  induction ms with
  | nil => intro p r; rfl
  | cons m ms ih =>
    intro p r
    rw [List.foldl_cons]
    cases hm : m.precipitation with
    | none =>
      simp only [agg_fold, hm]
      rw [ih]
      simp [List.filterMap_cons, hm]
    | some mp =>
      have hmax : (if p < mp then (Except.ok mp : Except String ℚ)
          else .ok p) = .ok (max p mp) := by
        split_ifs with h
        · rw [max_eq_right h.le]
        · rw [max_eq_left (not_lt.mp h)]
      simp only [agg_fold, hm, hmax]
      rw [ih]
      simp [List.filterMap_cons, hm]

/-- If no candidate produced a precipitation, the running maximum stays an
error through the whole loop. -/
lemma agg_fold_fst_err_all_none (env : FetchEnv) :
    ∀ (ms : List TileMeta) (e : String) (r : TileResult),
      (∀ m ∈ ms, m.precipitation = none) →
      ∃ e2, (ms.foldl (agg_fold env) (.error e, r)).1 = Except.error e2 := by
  intro ms
  induction ms with
  | nil => intro e r _; exact ⟨e, rfl⟩
  | cons m ms ih =>
    intro e r h
    have hm : m.precipitation = none := h m (List.mem_cons_self m ms)
    rw [List.foldl_cons]
    simp only [agg_fold, hm]
    exact ih "" _ (fun m2 hm2 => h m2 (List.mem_cons_of_mem m hm2))

/-- As soon as some candidate produces a precipitation, the loop ends with
the `max`-fold of the produced values. -/
lemma agg_fold_fst_err_vals (env : FetchEnv) :
    ∀ (ms : List TileMeta) (e : String) (r : TileResult) (v : ℚ) (vs : List ℚ),
      ms.filterMap (fun m => m.precipitation) = v :: vs →
      (ms.foldl (agg_fold env) (.error e, r)).1 = .ok (vs.foldl max v) := by
  intro ms
  induction ms with
  | nil => intro e r v vs h; cases h
  | cons m ms ih =>
    intro e r v vs h
    rw [List.foldl_cons]
    cases hm : m.precipitation with
    | none =>
      rw [List.filterMap_cons_none hm] at h
      simp only [agg_fold, hm]
      exact ih "" _ v vs h
    | some mp =>
      rw [List.filterMap_cons_some hm] at h
      injection h with hv hvs
      subst hv
      subst hvs
      simp only [agg_fold, hm]
      exact agg_fold_fst_ok env ms mp _

/-- The `max`-fold of a list is one of the candidates (the seed or a list
element). -/
lemma foldl_max_self_mem : ∀ (vs : List ℚ) (v : ℚ), vs.foldl max v ∈ v :: vs := by
  intro vs
  induction vs with
  | nil => intro v; simp
  | cons a vs ih =>
    intro v
    rw [List.foldl_cons]
    rcases List.mem_cons.mp (ih (max v a)) with h1 | h1
    · rcases max_choice v a with hc | hc
      · rw [h1, hc]
        exact List.mem_cons_self v (a :: vs)
      · rw [h1, hc]
        exact List.mem_cons_of_mem v (List.mem_cons_self a vs)
    · exact List.mem_cons_of_mem v (List.mem_cons_of_mem a h1)

/-- The `max`-fold of a list bounds the seed and every element. -/
lemma foldl_max_le_bound : ∀ (vs : List ℚ) (v u : ℚ),
    u ∈ v :: vs → u ≤ vs.foldl max v := by
  intro vs
  induction vs with
  | nil =>
    intro v u hu
    rw [List.foldl_nil]
    rcases List.mem_cons.mp hu with h | h
    · exact le_of_eq h
    · cases h
  | cons a vs ih =>
    intro v u hu
    rw [List.foldl_cons]
    have hseed : max v a ≤ vs.foldl max (max v a) :=
      ih (max v a) (max v a) (List.mem_cons_self _ vs)
    rcases List.mem_cons.mp hu with h | h
    · subst h
      exact le_trans (le_max_left _ _) hseed
    · rcases List.mem_cons.mp h with h2 | h2
      · subst h2
        exact le_trans (le_max_right _ _) hseed
      · exact ih (max v a) u (List.mem_cons_of_mem _ h2)

/-- A successful cache lookup returns a member of the cache. -/
lemma cache_search_mem (m c : TileMeta) :
    ∀ cache : Cache, cache_search m cache = some c → some c ∈ cache := by
  intro cache
  induction cache with
  | nil => intro h; cases h
  | cons a rest ih =>
    cases a with
    | none => exact fun h => List.mem_cons_of_mem none (ih h)
    | some b =>
      intro h
      simp only [cache_search] at h
      by_cases hb : tileMetaEq b m
      · rw [if_pos hb] at h
        injection h with hbc
        subst hbc
        exact List.mem_cons_self _ rest
      · rw [if_neg hb] at h
        exact List.mem_cons_of_mem _ (ih h)

/-- When every tile reaches the service but fails to decode, and the cache
holds no successful entry, `Tile::get_tiles` marks every candidate failed,
requests every candidate's tile once in order, and pushes one failed entry
per candidate; the cache still holds no successful entry afterwards. -/
lemma get_tiles_all_fail (env : FetchEnv)
    (hfetch : ∀ k, env.fetch k = some none) :
    ∀ (metas : List TileMeta) (cache : Cache),
      (∀ om ∈ cache, ∀ m2 : TileMeta, om = some m2 → m2.precipitation = none) →
      get_tiles env cache metas
        = some (metas.map fail_mark,
                List.foldl (fun cc mm => cache_push mm cc) cache
                  (metas.map fail_mark),
                metas.map TileMeta.key)
      ∧ (∀ om ∈ List.foldl (fun cc mm => cache_push mm cc) cache
            (metas.map fail_mark),
          ∀ m2 : TileMeta, om = some m2 → m2.precipitation = none) := by
  intro metas
  induction metas with
  | nil => intro cache hc; exact ⟨rfl, hc⟩
  | cons m metas ih =>
    intro cache hc
    have hor : cache_search m cache = none ∨
        ∃ c, cache_search m cache = some c ∧ c.precipitation = none := by
      cases hs : cache_search m cache with
      | none => exact Or.inl rfl
      | some c =>
        exact Or.inr ⟨c, rfl, hc (some c) (cache_search_mem m c cache hs) c rfl⟩
    have hres : resolve env cache m
        = some (fail_mark m, cache_push (fail_mark m) cache, [m.key]) := by
      rw [resolve_miss env cache m hor]
      simp only [resolve_fetch, hfetch m.key, fail_mark]
    have hinv2 : ∀ om ∈ cache_push (fail_mark m) cache,
        ∀ m2 : TileMeta, om = some m2 → m2.precipitation = none := by
      intro om hom m2 hm2
      rcases List.mem_append.mp hom with h1 | h1
      · exact hc om (List.drop_subset 1 cache h1) m2 hm2
      · rw [List.mem_singleton.mp h1] at hm2
        injection hm2 with hm3
        rw [← hm3]
        rfl
    obtain ⟨ih1, ih2⟩ := ih (cache_push (fail_mark m) cache) hinv2
    constructor
    · simp only [get_tiles, hres, ih1, List.map_cons, List.foldl_cons]
      rfl
    · simp only [List.map_cons, List.foldl_cons]
      exact ih2

/-- C1 (amended).  First half: when every candidate slice fails (every
tile fails to decode and the cache holds no successful entry), the
aggregation loop
still assembles `times`/`images` with one entry per candidate — but
`Tile::precipitation_with_images` then RETURNS the error
`"No Precipitation data"`, discarding that populated `TileResult`; no
`WindowResult` carrying the sequences reaches the caller.  Second half: the
error return happens exactly when every resolved candidate's precipitation
is `none`; otherwise the returned result's precipitation is the maximum
over the candidates that produced one, and its `times`/`images` have one
entry per candidate. -/
theorem c1_total_failure_amended :
    (∀ (env : FetchEnv) (cache : Cache) (metas : List TileMeta),
        (∀ k, env.fetch k = some none) →
        (∀ om ∈ cache, ∀ m2 : TileMeta, om = some m2 →
            m2.precipitation = none) →
        aggregate_candidates env cache metas
            = some (.error "No Precipitation data",
                    List.foldl (fun cc mm => cache_push mm cc) cache
                      (metas.map fail_mark),
                    metas.map TileMeta.key)
        ∧ ((metas.map fail_mark).foldl (agg_fold env)
              (.error "", TileResult.new)).2.times.length = metas.length
        ∧ ((metas.map fail_mark).foldl (agg_fold env)
              (.error "", TileResult.new)).2.images.length = metas.length)
  ∧ (∀ (env : FetchEnv) (cache : Cache) (metas metas2 : List TileMeta)
        (cache2 : Cache) (reqs : List (String × Int × String)),
        get_tiles env cache metas = some (metas2, cache2, reqs) →
        ((aggregate_candidates env cache metas
            = some (.error "No Precipitation data", cache2, reqs)
          ↔ ∀ m ∈ metas2, m.precipitation = none)
         ∧ ∀ tr : TileResult, aggregate_candidates env cache metas
              = some (.ok tr, cache2, reqs) →
            tr.precipitation ∈ metas2.filterMap (fun m => m.precipitation)
            ∧ (∀ v ∈ metas2.filterMap (fun m => m.precipitation),
                v ≤ tr.precipitation)
            ∧ tr.times.length = metas2.length
            ∧ tr.images.length = metas2.length)) := by
  constructor
  · intro env cache metas hfetch hcache
    obtain ⟨hg, _⟩ := get_tiles_all_fail env hfetch metas cache hcache
    have hall : ∀ m ∈ metas.map fail_mark, m.precipitation = none := by
      intro m hm
      obtain ⟨m0, _, rfl⟩ := List.mem_map.mp hm
      rfl
    obtain ⟨e2, he2⟩ := agg_fold_fst_err_all_none env (metas.map fail_mark)
      "" TileResult.new hall
    refine ⟨?_, ?_, ?_⟩
    · simp only [aggregate_candidates, hg, he2]
    · rw [agg_fold_snd]
      simp [TileResult.new]
    · rw [agg_fold_snd]
      simp [TileResult.new]
  · intro env cache metas metas2 cache2 reqs hget
    have hagg : aggregate_candidates env cache metas
        = (match (metas2.foldl (agg_fold env)
              (.error "", TileResult.new)).1 with
           | .ok p =>
             some (.ok { (metas2.foldl (agg_fold env)
                 (.error "", TileResult.new)).2 with precipitation := p },
               cache2, reqs)
           | .error _ =>
             some (.error "No Precipitation data", cache2, reqs)) := by
      simp only [aggregate_candidates, hget]
    constructor
    · constructor
      · intro h
        by_contra hnot
        cases hv : metas2.filterMap (fun m => m.precipitation) with
        | nil =>
          exact hnot (by
            intro m hm
            exact (List.filterMap_eq_nil_iff.mp hv) m hm)
        | cons v vs =>
          have hok := agg_fold_fst_err_vals env metas2 "" TileResult.new
            v vs hv
          rw [hagg] at h
          rw [hok] at h
          simp at h
      · intro h
        obtain ⟨e2, he2⟩ := agg_fold_fst_err_all_none env metas2
          "" TileResult.new h
        rw [hagg, he2]
    · intro tr htr
      rw [hagg] at htr
      cases h1 : (metas2.foldl (agg_fold env)
          (.error "", TileResult.new)).1 with
      | error e =>
        rw [h1] at htr
        simp at htr
      | ok p =>
        rw [h1] at htr
        simp only [Option.some.injEq, Prod.mk.injEq] at htr
        obtain ⟨htr1, -⟩ := htr
        have htr2 : tr.precipitation = p ∧
            tr.times = (metas2.foldl (agg_fold env)
              (.error "", TileResult.new)).2.times ∧
            tr.images = (metas2.foldl (agg_fold env)
              (.error "", TileResult.new)).2.images := by
          injection htr1 with h2
          rw [← h2]
          exact ⟨rfl, rfl, rfl⟩
        obtain ⟨hp0, ht0, hi0⟩ := htr2
        cases hv : metas2.filterMap (fun m => m.precipitation) with
        | nil =>
          obtain ⟨e2, he2⟩ := agg_fold_fst_err_all_none env metas2
            "" TileResult.new (List.filterMap_eq_nil_iff.mp hv)
          rw [h1] at he2
          cases he2
        | cons v vs =>
          have hok := agg_fold_fst_err_vals env metas2 "" TileResult.new
            v vs hv
          rw [h1] at hok
          injection hok with hpmax
          refine ⟨?_, ?_, ?_, ?_⟩
          · rw [hp0, hpmax]
            exact foldl_max_self_mem vs v
          · intro u hu
            rw [hp0, hpmax]
            exact foldl_max_le_bound vs v u hu
          · rw [ht0, agg_fold_snd]
            simp [TileResult.new]
          · rw [hi0, agg_fold_snd]
            simp [TileResult.new]

/-- Witness for C1 at one concrete failing candidate. -/
theorem c1_total_failure_witness :
    aggregate_candidates envFail initCache [mA]
        = some (.error "No Precipitation data",
                List.foldl (fun cc mm => cache_push mm cc) initCache
                  ([mA].map fail_mark),
                [mA].map TileMeta.key)
    ∧ (([mA].map fail_mark).foldl (agg_fold envFail)
          (.error "", TileResult.new)).2.times.length = [mA].length
    ∧ (([mA].map fail_mark).foldl (agg_fold envFail)
          (.error "", TileResult.new)).2.images.length = [mA].length :=
  c1_total_failure_amended.1 envFail initCache [mA] (fun _ => rfl)
    (by
      intro om hom m2 hm2
      simp only [initCache] at hom
      rw [List.eq_of_mem_replicate hom] at hm2
      cases hm2)

/-- Counterexample to C1 as stated: with a single candidate whose fetch
fails, the aggregator does not return any `WindowResult` whose
`peakPrecipitation` is `none` with populated `times`/`thumbnails` — it
returns the bare error `"No Precipitation data"`, and no `Ok` result (the
only carrier of `times`/`images`) is produced at all. -/
theorem c1_total_failure_counterexample :
    aggregate_candidates envFail initCache [mD]
        = some (.error "No Precipitation data",
                cache_push mD initCache, [mD.key])
    ∧ ¬ ∃ (tr : TileResult) (cache2 : Cache)
          (reqs : List (String × Int × String)),
        aggregate_candidates envFail initCache [mD]
          = some (.ok tr, cache2, reqs) := by
  have h : aggregate_candidates envFail initCache [mD]
      = some (.error "No Precipitation data",
              cache_push mD initCache, [mD.key]) := by decide
  refine ⟨h, ?_⟩
  rintro ⟨tr, cache2, reqs, hq⟩
  rw [h] at hq
  simp at hq

/-! ### Nearest-entry loop (C6, C10) -/

/-- Invariant of the nearest-entry loop: starting from accumulator
`(idx, dm)` at absolute position `k`, the final minimum never exceeds `dm`
nor any processed difference, and the final accumulator is either the
initial one (no difference beat `dm`) or positioned at the first entry
attaining the final minimum. -/
lemma anchor_go_spec (b : Int) :
    ∀ (l : List TileMeta) (k idx : Nat) (dm : Int),
      (anchor_go b k (idx, dm) l).2 ≤ dm
      ∧ (∀ j, j < l.length →
          (anchor_go b k (idx, dm) l).2 ≤ |(l.getD j dmeta).validtime - b|)
      ∧ (anchor_go b k (idx, dm) l = (idx, dm)
         ∨ ∃ j, j < l.length
             ∧ (anchor_go b k (idx, dm) l).1 = k + j
             ∧ (anchor_go b k (idx, dm) l).2 = |(l.getD j dmeta).validtime - b|
             ∧ (anchor_go b k (idx, dm) l).2 < dm
             ∧ ∀ j2, j2 < j →
                 (anchor_go b k (idx, dm) l).2
                   < |(l.getD j2 dmeta).validtime - b|) := by
  intro l
  induction l with
  | nil =>
    intro k idx dm
    refine ⟨le_refl dm, ?_, Or.inl rfl⟩
    intro j hj
    simp at hj
  | cons m rest ih =>
    intro k idx dm
    by_cases hlt : |m.validtime - b| < dm
    · have heq : anchor_go b k (idx, dm) (m :: rest)
          = anchor_go b (k + 1) (k, |m.validtime - b|) rest := by
        simp [anchor_go, hlt]
      obtain ⟨ih1, ih2, ih3⟩ := ih (k + 1) k |m.validtime - b|
      rw [heq]
      refine ⟨le_trans ih1 hlt.le, ?_, ?_⟩
      · intro j hj
        cases j with
        | zero =>
          rw [List.getD_cons_zero]
          exact ih1
        | succ j2 =>
          rw [List.getD_cons_succ]
          exact ih2 j2 (by simp only [List.length_cons] at hj; omega)
      · rcases ih3 with h | ⟨j, hj, h1, h2, h3, h4⟩
        · right
          refine ⟨0, by simp, ?_, ?_, ?_, ?_⟩
          · rw [h]
            simp
          · rw [h, List.getD_cons_zero]
          · rw [h]
            exact hlt
          · intro j2 hj2
            exact absurd hj2 (Nat.not_lt_zero j2)
        · right
          refine ⟨j + 1, by simp only [List.length_cons]; omega, ?_, ?_,
            lt_trans h3 hlt, ?_⟩
          · rw [h1]
            omega
          · rw [List.getD_cons_succ]
            exact h2
          · intro j2 hj2
            cases j2 with
            | zero =>
              rw [List.getD_cons_zero]
              exact h3
            | succ j3 =>
              rw [List.getD_cons_succ]
              exact h4 j3 (by omega)
    · have heq : anchor_go b k (idx, dm) (m :: rest)
          = anchor_go b (k + 1) (idx, dm) rest := by
        simp [anchor_go, hlt]
      obtain ⟨ih1, ih2, ih3⟩ := ih (k + 1) idx dm
      rw [heq]
      refine ⟨ih1, ?_, ?_⟩
      · intro j hj
        cases j with
        | zero =>
          rw [List.getD_cons_zero]
          exact le_trans ih1 (not_lt.mp hlt)
        | succ j2 =>
          rw [List.getD_cons_succ]
          exact ih2 j2 (by simp only [List.length_cons] at hj; omega)
      · rcases ih3 with h | ⟨j, hj, h1, h2, h3, h4⟩
        · left
          exact h
        · right
          refine ⟨j + 1, by simp only [List.length_cons]; omega, ?_, ?_, h3, ?_⟩
          · rw [h1]
            omega
          · rw [List.getD_cons_succ]
            exact h2
          · intro j2 hj2
            cases j2 with
            | zero =>
              rw [List.getD_cons_zero]
              exact lt_of_lt_of_le h3 (not_lt.mp hlt)
            | succ j3 =>
              rw [List.getD_cons_succ]
              exact h4 j3 (by omega)

/-- `List.getD` agrees with `List.get` at in-bounds indices. -/
lemma getD_of_lt (l : List TileMeta) (n : Nat) (h : n < l.length) :
    l.getD n dmeta = l.get ⟨n, h⟩ := by
  simp [List.getD_eq_getElem?_getD, List.getElem?_eq_getElem h]

/-- The anchor index of a nonempty catalog is in bounds: the loop starts at
0 and only ever stores enumeration indices. -/
lemma anchor_lt_length (catalog : List TileMeta) (b : Int)
    (h : catalog ≠ []) : anchor_index catalog b < catalog.length := by
  obtain ⟨-, -, h3⟩ := anchor_go_spec b catalog 0 0 DURATION_INIT
  rcases h3 with heq | ⟨j, hj, h1, -, -, -⟩
  · simp only [anchor_index, heq]
    exact List.length_pos.mpr h
  · simp only [anchor_index, h1]
    omega

/-- The backward candidate scan never goes out of bounds when started in
bounds. -/
lemma candidate_scan_isSome (catalog : List TileMeta) (e : Int) :
    ∀ i, i < catalog.length → ∃ cs, candidate_scan catalog e i = some cs := by
  intro i
  induction i with
  | zero =>
    intro h
    have hg : catalog.get? 0 = some (catalog.get ⟨0, h⟩) := List.get?_eq_get h
    simp only [candidate_scan, hg]
    split_ifs with he
    · exact ⟨[], rfl⟩
    · exact ⟨[catalog.get ⟨0, h⟩], rfl⟩
  | succ j ihj =>
    intro h
    have hj : j < catalog.length := by omega
    have hg : catalog.get? (j + 1) = some (catalog.get ⟨j + 1, h⟩) :=
      List.get?_eq_get h
    obtain ⟨cs, hcs⟩ := ihj hj
    simp only [candidate_scan, hg, hcs]
    split_ifs with he
    · exact ⟨[], rfl⟩
    · exact ⟨catalog.get ⟨j + 1, h⟩ :: cs, rfl⟩

/-- Characterization of the backward candidate scan: from an in-bounds
start `i` it returns the entries at indices `i, i-1, ..., stop` (all with
valid time at most `e`), and either `stop = 0` (it reached the start of the
catalog) or the entry below `stop` has a valid time beyond `e` (the
`break`). -/
lemma candidate_scan_spec (catalog : List TileMeta) (e : Int) :
    ∀ i, i < catalog.length →
      ∃ cs, candidate_scan catalog e i = some cs
        ∧ ∃ stop, stop ≤ i + 1
            ∧ cs.length = i + 1 - stop
            ∧ (∀ t, t < cs.length →
                cs.getD t dmeta = catalog.getD (i - t) dmeta)
            ∧ (∀ j, stop ≤ j → j ≤ i → (catalog.getD j dmeta).validtime ≤ e)
            ∧ (stop = 0 ∨ e < (catalog.getD (stop - 1) dmeta).validtime) := by
  intro i
  induction i with
  | zero =>
    intro h
    have hg : catalog.get? 0 = some (catalog.get ⟨0, h⟩) := List.get?_eq_get h
    have hgd : catalog.getD 0 dmeta = catalog.get ⟨0, h⟩ := getD_of_lt _ _ h
    by_cases he : e < (catalog.get ⟨0, h⟩).validtime
    · have hscan : candidate_scan catalog e 0 = some [] := by
        simp only [candidate_scan, hg]
        rw [if_pos he]
      refine ⟨[], hscan, 1, le_refl 1, rfl, ?_, ?_, Or.inr ?_⟩
      · intro t ht
        simp at ht
      · intro j h1 h2
        omega
      · show e < (catalog.getD 0 dmeta).validtime
        rw [hgd]
        exact he
    · have hscan : candidate_scan catalog e 0
          = some [catalog.get ⟨0, h⟩] := by
        simp only [candidate_scan, hg]
        rw [if_neg he]
      refine ⟨[catalog.get ⟨0, h⟩], hscan, 0, by omega, rfl, ?_, ?_,
        Or.inl rfl⟩
      · intro t ht
        cases t with
        | zero =>
          simp only [List.getD_cons_zero, Nat.sub_zero]
          exact hgd.symm
        | succ t2 => simp at ht
      · intro j h1 h2
        have hj0 : j = 0 := by omega
        subst hj0
        rw [hgd]
        exact not_lt.mp he
  | succ j ihj =>
    intro h
    have hj : j < catalog.length := by omega
    have hg : catalog.get? (j + 1) = some (catalog.get ⟨j + 1, h⟩) :=
      List.get?_eq_get h
    have hgd : catalog.getD (j + 1) dmeta = catalog.get ⟨j + 1, h⟩ :=
      getD_of_lt _ _ h
    by_cases he : e < (catalog.get ⟨j + 1, h⟩).validtime
    · have hscan : candidate_scan catalog e (j + 1) = some [] := by
        simp only [candidate_scan, hg]
        rw [if_pos he]
      refine ⟨[], hscan, j + 2, ?_, ?_, ?_, ?_, Or.inr ?_⟩
      · omega
      · simp only [List.length_nil]
        omega
      · intro t ht
        simp at ht
      · intro j2 h1 h2
        omega
      · show e < (catalog.getD (j + 2 - 1) dmeta).validtime
        have hsub : j + 2 - 1 = j + 1 := by omega
        rw [hsub, hgd]
        exact he
    · obtain ⟨cs, hcs, stop, hst, hlen, hidx, hle, hstop⟩ := ihj hj
      have hscan : candidate_scan catalog e (j + 1)
          = some (catalog.get ⟨j + 1, h⟩ :: cs) := by
        simp only [candidate_scan, hg, hcs]
        rw [if_neg he]
        rfl
      refine ⟨catalog.get ⟨j + 1, h⟩ :: cs, hscan, stop, ?_, ?_, ?_, ?_,
        hstop⟩
      · omega
      · simp only [List.length_cons, hlen]
        omega
      · intro t ht
        cases t with
        | zero =>
          simp only [List.getD_cons_zero, Nat.sub_zero]
          exact hgd.symm
        | succ t2 =>
          rw [List.getD_cons_succ]
          have ht2 : t2 < cs.length := by
            simp only [List.length_cons] at ht
            omega
          rw [hidx t2 ht2]
          have hsub : j + 1 - (t2 + 1) = j - t2 := by omega
          rw [hsub]
      · intro j2 h1 h2
        rcases Nat.lt_or_ge j2 (j + 1) with hlt2 | hge2
        · exact hle j2 h1 (by omega)
        · have hj2 : j2 = j + 1 := by omega
          subst hj2
          rw [hgd]
          exact not_lt.mp he

/-- C6 (amended).  PROVIDED some catalog entry's valid time is within 365
days (strictly, in seconds) of the (possibly advanced) `begin`, the anchor
index is the first index minimizing the absolute valid-time difference
(minimal among all entries, strictly smaller than every earlier entry's
difference), and the candidate scan from the anchor toward index 0 selects
exactly the entries at indices `anchor, anchor-1, ..., stop`, all with
valid time at most `end`, stopping either at index 0 or right above an
entry whose valid time exceeds `end`. -/
theorem c6_anchor_scan_amended (catalog : List TileMeta) (begin1 end0 : Int)
    (hnear : ∃ i, i < catalog.length ∧
        |(catalog.getD i dmeta).validtime - begin1| < DURATION_INIT) :
    (anchor_index catalog begin1 < catalog.length
     ∧ (∀ i, i < catalog.length →
          |(catalog.getD (anchor_index catalog begin1) dmeta).validtime
              - begin1|
            ≤ |(catalog.getD i dmeta).validtime - begin1|)
     ∧ (∀ i, i < anchor_index catalog begin1 →
          |(catalog.getD (anchor_index catalog begin1) dmeta).validtime
              - begin1|
            < |(catalog.getD i dmeta).validtime - begin1|))
  ∧ (∃ cs, candidate_scan catalog end0 (anchor_index catalog begin1) = some cs
      ∧ ∃ stop, stop ≤ anchor_index catalog begin1 + 1
          ∧ cs.length = anchor_index catalog begin1 + 1 - stop
          ∧ (∀ t, t < cs.length →
              cs.getD t dmeta
                = catalog.getD (anchor_index catalog begin1 - t) dmeta)
          ∧ (∀ j, stop ≤ j → j ≤ anchor_index catalog begin1 →
              (catalog.getD j dmeta).validtime ≤ end0)
          ∧ (stop = 0 ∨ end0 < (catalog.getD (stop - 1) dmeta).validtime)) := by
  obtain ⟨i0, hi0, hd0⟩ := hnear
  obtain ⟨s1, s2, s3⟩ := anchor_go_spec begin1 catalog 0 0 DURATION_INIT
  rcases s3 with heq | ⟨j, hj, h1, h2, h3, h4⟩
  · exfalso
    have hb := s2 i0 hi0
    rw [heq] at hb
    exact absurd (lt_of_le_of_lt hb hd0) (lt_irrefl _)
  · have hanchor : anchor_index catalog begin1 = j := by
      simp only [anchor_index, h1]
      omega
    have hA1 : anchor_index catalog begin1 < catalog.length := by
      rw [hanchor]
      exact hj
    refine ⟨⟨hA1, ?_, ?_⟩, ?_⟩
    · intro i hi
      rw [hanchor]
      have hs := s2 i hi
      rw [h2] at hs
      exact hs
    · intro i hi
      rw [hanchor] at hi ⊢
      have hs := h4 i hi
      rw [h2] at hs
      exact hs
    · exact candidate_scan_spec catalog end0 (anchor_index catalog begin1) hA1

/-- Counterexample to C6 as stated: with `begin = 0` and a catalog whose
two entries lie 40000000 s and 35000000 s away — both at least 365 days
(31536000 s) — the running minimum is never updated and the anchor stays
at index 0 although entry 1 is strictly nearer, so the anchor does not
minimize the absolute valid-time difference. -/
theorem c6_anchor_scan_counterexample :
    anchor_index cat6 0 = 0
    ∧ |(cat6.getD 1 dmeta).validtime - 0|
        < |(cat6.getD 0 dmeta).validtime - 0| :=
  ⟨by decide, by decide⟩

/-- Witness for C6 at a concrete catalog: with `begin = 45`, entry 1
(valid time 40, difference 5) is within 365 days. -/
theorem c6_anchor_scan_witness :
    (anchor_index catW 45 < catW.length
     ∧ (∀ i, i < catW.length →
          |(catW.getD (anchor_index catW 45) dmeta).validtime - 45|
            ≤ |(catW.getD i dmeta).validtime - 45|)
     ∧ (∀ i, i < anchor_index catW 45 →
          |(catW.getD (anchor_index catW 45) dmeta).validtime - 45|
            < |(catW.getD i dmeta).validtime - 45|))
  ∧ (∃ cs, candidate_scan catW 60 (anchor_index catW 45) = some cs
      ∧ ∃ stop, stop ≤ anchor_index catW 45 + 1
          ∧ cs.length = anchor_index catW 45 + 1 - stop
          ∧ (∀ t, t < cs.length →
              cs.getD t dmeta = catW.getD (anchor_index catW 45 - t) dmeta)
          ∧ (∀ j, stop ≤ j → j ≤ anchor_index catW 45 →
              (catW.getD j dmeta).validtime ≤ 60)
          ∧ (stop = 0 ∨ 60 < (catW.getD (stop - 1) dmeta).validtime)) :=
  c6_anchor_scan_amended catW 45 60 ⟨1, by decide, by decide⟩

/-- C10.  A non-empty catalog is an unstated precondition of aggregation:
after the window validation passes, on an empty catalog the anchor stays 0
and the backward candidate scan indexes `catalog[0]` out of bounds, so the
whole call panics (modelled `none`) instead of returning an error value;
on a non-empty catalog the anchor index is in bounds and the scan only
performs in-bounds accesses (it returns a value). -/
theorem c10_catalog_indexing :
    (∀ (env : FetchEnv) (cache : Cache) (now begin0 end0 : Int) (p : String),
        now ≤ end0 →
        precipitation_with_images env cache now begin0 end0 p [] = none)
  ∧ (∀ (catalog : List TileMeta) (begin1 end0 : Int), catalog ≠ [] →
        anchor_index catalog begin1 < catalog.length
        ∧ ∃ cs, candidate_scan catalog end0
            (anchor_index catalog begin1) = some cs) := by
  constructor
  · intro env cache now begin0 end0 p hle
    simp only [precipitation_with_images]
    rw [if_neg (not_lt.mpr hle)]
    rfl
  · intro catalog begin1 end0 hne
    refine ⟨anchor_lt_length catalog begin1 hne, ?_⟩
    exact candidate_scan_isSome catalog end0 _
      (anchor_lt_length catalog begin1 hne)

/-- Witness for C10: the empty catalog panics inside a still-open window;
a concrete two-entry catalog is indexed in bounds. -/
theorem c10_catalog_indexing_witness :
    precipitation_with_images envFail initCache 0 0 5 "Morning" [] = none
    ∧ (anchor_index catW 45 < catW.length
       ∧ ∃ cs, candidate_scan catW 60 (anchor_index catW 45) = some cs) :=
  ⟨c10_catalog_indexing.1 envFail initCache 0 0 5 "Morning" (by decide),
   c10_catalog_indexing.2 catW 45 60 (by decide)⟩
